import Mathlib

/-!
Verification of the two figure-generation pipelines of the
"Surveying the Deep" repository against its specification.

The repository has two independent pipelines:

* `techniques.py`: load a publication CSV, aggregate technique counts by
  year (`format_df`), render a stacked bar chart (`generate_stacked_barchart`)
  and optionally print percentage statistics (`print_stats`).
* `heatmap.py`: load a coordinate CSV, bin the points into a 2D histogram
  (`np.histogram2d` with no explicit range), log-transform the counts with
  zero cells mapped to zero, Gaussian-smooth the grid
  (`ndimage.gaussian_filter`), and overlay the result on a world basemap.

The embedding below models the data transformations of both pipelines.
Counts are integers; the exact rational numbers stand in for Python floats
in the percentage computation, and real numbers model the float grid fed
through `np.log` and the Gaussian filter (with `WithBot ℝ` modelling a float
array that may contain negative infinity after `np.log`).
-/

namespace Techniques

/-- One row of the techniques CSV: the `Year` column and the three
technique indicator columns used by `format_df`. -/
structure Row where
  Year : Int
  Image_Processing : Int
  Machine_Learning : Int
  Deep_Learning : Int
deriving DecidableEq

/-- An entry of the aggregated table produced by `format_df`: the year index
together with the three per-year column sums. -/
abbrev Entry := Int × Int × Int × Int

/-- The per-year group sums of the three technique columns: the sums of the
raw column values over the input rows whose `Year` equals `y`.  This is the
value `df.groupby('Year').sum()` assigns to the index entry `y`. -/
def groupSums (rows : List Row) (y : Int) : Int × Int × Int :=
  let grp := rows.filter (fun r => r.Year = y)
  ((grp.map Row.Image_Processing).sum,
   (grp.map Row.Machine_Learning).sum,
   (grp.map Row.Deep_Learning).sum)

/-- Insert a year into an ascending list of years, keeping it ascending. -/
def insertSorted (y : Int) : List Int → List Int
  | [] => [y]
  | x :: xs => if y ≤ x then y :: x :: xs else x :: insertSorted y xs

/-- Sort a list of years ascending by insertion sort (a structurally
recursive model of the sorted group-key index produced by pandas). -/
def sortYears (l : List Int) : List Int := l.foldr insertSorted []

/-- Embedding of `format_df` (techniques.py): select the `Year` column and the
three technique columns and aggregate them with `df.groupby('Year').sum()`.
The result is indexed by the distinct years present in the input, in ascending
order (pandas sorts group keys), each mapped to its per-year column sums. -/
def format_df (rows : List Row) : List Entry :=
  (sortYears ((rows.map Row.Year).dedup)).map
    (fun y => (y, groupSums rows y))

/-- Sum of the `Image Processing` column of an aggregated table. -/
def colIP (df : List Entry) : Int := (df.map (fun e => e.2.1)).sum

/-- Sum of the `Machine Learning` column of an aggregated table. -/
def colML (df : List Entry) : Int := (df.map (fun e => e.2.2.1)).sum

/-- Sum of the `Deep Learning` column of an aggregated table. -/
def colDL (df : List Entry) : Int := (df.map (fun e => e.2.2.2)).sum

/-- The grand total `df.sum().sum()` of an aggregated table: the sum of the
three technique column sums (the `Year` values form the index, not a column,
so they do not participate). -/
def totalSum (df : List Entry) : Int := colIP df + colML df + colDL df

/-- The row restriction `df[df.index >= after_year_only]` performed by
`print_stats` when `after_year_only` is not `None`; the identity otherwise. -/
def filterAfter (after_year_only : Option Int) (df : List Entry) : List Entry :=
  match after_year_only with
  | none => df
  | some y => df.filter (fun e => y ≤ e.1)

/-- Embedding of `print_stats` (techniques.py): restrict the aggregated table
to years at or after `after_year_only` when given, then compute each
technique's column sum divided by the grand total `df.sum().sum()`, times 100.
The three printed percentages are returned as a triple of exact rationals. -/
def print_stats (df : List Entry) (after_year_only : Option Int) : ℚ × ℚ × ℚ :=
  let d := filterAfter after_year_only df
  ((colIP d : ℚ) / (totalSum d : ℚ) * 100,
   (colML d : ℚ) / (totalSum d : ℚ) * 100,
   (colDL d : ℚ) / (totalSum d : ℚ) * 100)

/-- The command-line arguments of techniques.py that affect the data
computation (the remaining flags only style the rendered image). -/
structure Args where
  after_year_only : Option Int

/-- Embedding of `main` (techniques.py): aggregate the input rows with
`format_df`, hand the aggregated table to `generate_stacked_barchart`
unchanged (first component: the chart data), and run `print_stats` on the
same table with the `--after-year-only` argument (second component). -/
def techniques_main (rows : List Row) (args : Args) : List Entry × (ℚ × ℚ × ℚ) :=
  let df := format_df rows
  (df, print_stats df args.after_year_only)

/-- The two-row example input from the specification: years 2020 and 2021 with
`Image_Processing = 1,0`, `Machine_Learning = 0,1`, `Deep_Learning = 1,1`. -/
def exampleRows : List Row :=
  [⟨2020, 1, 0, 1⟩, ⟨2021, 0, 1, 1⟩]

/-- C7: on the two-row example input (years 2020 and 2021, IP = 1,0,
ML = 0,1, DL = 1,1) the aggregation yields {2020 ↦ (1,0,1), 2021 ↦ (0,1,1)},
the column sums are IP = 1, ML = 1, DL = 2, and the printed percentages are
25%, 25% and 50%. -/
theorem c7_end_to_end :
    format_df exampleRows = [(2020, 1, 0, 1), (2021, 0, 1, 1)] ∧
    colIP (format_df exampleRows) = 1 ∧
    colML (format_df exampleRows) = 1 ∧
    colDL (format_df exampleRows) = 2 ∧
    print_stats (format_df exampleRows) none = (25, 25, 50) := by
  have h1 : filterAfter none (format_df exampleRows) = format_df exampleRows := rfl
  have hip : colIP (format_df exampleRows) = 1 := by decide
  have hml : colML (format_df exampleRows) = 1 := by decide
  have hdl : colDL (format_df exampleRows) = 2 := by decide
  have htot : totalSum (format_df exampleRows) = 4 := by decide
  refine ⟨by decide, hip, hml, hdl, ?_⟩
  simp only [print_stats, h1, hip, hml, hdl, htot]
  norm_num

lemma mem_insertSorted (y a : Int) (l : List Int) :
    a ∈ insertSorted y l ↔ a = y ∨ a ∈ l := by
  induction l with
  | nil => simp [insertSorted]
  | cons x xs ih =>
    simp only [insertSorted]
    by_cases h : y ≤ x
    · simp only [if_pos h, List.mem_cons]
    · simp only [if_neg h, List.mem_cons, ih]
      tauto

lemma mem_sortYears (a : Int) (l : List Int) : a ∈ sortYears l ↔ a ∈ l := by
  induction l with
  | nil => simp [sortYears]
  | cons x xs ih =>
    show a ∈ insertSorted x (sortYears xs) ↔ _
    rw [mem_insertSorted, ih, List.mem_cons]

lemma format_df_keys (rows : List Row) :
    (format_df rows).map Prod.fst = sortYears ((rows.map Row.Year).dedup) := by
  simp [format_df, List.map_map, Function.comp_def]

/-- C5: the aggregated table is indexed by exactly the distinct years present
in the input (years with no publications are absent, with no zero-fill), and
each entry holds, per technique column, the sum of that raw column over the
input rows with that year. -/
theorem c5_aggregation (rows : List Row) (y : Int) :
    (y ∈ (format_df rows).map Prod.fst ↔ y ∈ rows.map Row.Year) ∧
    ∀ s : Int × Int × Int, (y, s) ∈ format_df rows → s = groupSums rows y := by
  constructor
  · rw [format_df_keys, mem_sortYears, List.mem_dedup]
  · intro s hs
    simp only [format_df, List.mem_map] at hs
    obtain ⟨a, _, ha⟩ := hs
    have h1 : a = y := congrArg Prod.fst ha
    have h2 : groupSums rows a = s := congrArg Prod.snd ha
    rw [← h2, h1]

/-- Witness for C5 at the two-row example input: the entry stored for year
2020 is the per-column sum (1, 0, 1) of the 2020 rows. -/
theorem c5_aggregation_witness :
    ((1 : Int), (0 : Int), (1 : Int)) = groupSums exampleRows 2020 :=
  (c5_aggregation exampleRows 2020).2 (1, 0, 1) (by decide)

/-- C6: each printed percentage is the technique's column sum divided by the
grand total over all three techniques and all included years, times 100; and
with no year filter the three percentages sum to exactly 100 (the embedding
computes in exact rationals, so the floating-point tolerance is met
trivially), provided the grand total is positive. -/
theorem c6_percentages (df : List Entry) (after : Option Int)
    (hpos : 0 < totalSum df) :
    print_stats df after =
      ((colIP (filterAfter after df) : ℚ) / (totalSum (filterAfter after df) : ℚ) * 100,
       (colML (filterAfter after df) : ℚ) / (totalSum (filterAfter after df) : ℚ) * 100,
       (colDL (filterAfter after df) : ℚ) / (totalSum (filterAfter after df) : ℚ) * 100) ∧
    (print_stats df none).1 + (print_stats df none).2.1 +
      (print_stats df none).2.2 = 100 := by
  refine ⟨rfl, ?_⟩
  have ht : ((totalSum df : Int) : ℚ) ≠ 0 := Int.cast_ne_zero.mpr (ne_of_gt hpos)
  have hexp : ((totalSum df : Int) : ℚ) =
      (colIP df : ℚ) + (colML df : ℚ) + (colDL df : ℚ) := by
    simp only [totalSum]
    push_cast
    ring
  rw [hexp] at ht
  simp only [print_stats, filterAfter, hexp]
  field_simp
  ring

/-- Witness for C6 at the aggregated two-row example table, whose grand
total 4 is positive. -/
theorem c6_percentages_witness :
    (print_stats (format_df exampleRows) none =
      ((colIP (filterAfter none (format_df exampleRows)) : ℚ) /
          (totalSum (filterAfter none (format_df exampleRows)) : ℚ) * 100,
       (colML (filterAfter none (format_df exampleRows)) : ℚ) /
          (totalSum (filterAfter none (format_df exampleRows)) : ℚ) * 100,
       (colDL (filterAfter none (format_df exampleRows)) : ℚ) /
          (totalSum (filterAfter none (format_df exampleRows)) : ℚ) * 100)) ∧
    (print_stats (format_df exampleRows) none).1 +
      (print_stats (format_df exampleRows) none).2.1 +
      (print_stats (format_df exampleRows) none).2.2 = 100 :=
  c6_percentages (format_df exampleRows) none (by decide)

/-- C10: when the year filter excludes every row of the aggregated table
(also when the table is empty), the restricted table is empty, the grand
total used as the denominator is 0, and `print_stats` still performs the
three divisions with that zero denominator — there is no dedicated error
path.  (The Python code divides numpy integer zeros, producing NaN with a
runtime warning rather than a dedicated error; the rational embedding
records the same division-by-zero expressions.) -/
theorem c10_zero_denominator (df : List Entry) (Y : Int)
    (h : ∀ e ∈ df, e.1 < Y) :
    filterAfter (some Y) df = [] ∧
    totalSum (filterAfter (some Y) df) = 0 ∧
    print_stats df (some Y) = ((0 : ℚ) / 0 * 100, (0 : ℚ) / 0 * 100, (0 : ℚ) / 0 * 100) := by
  have hnil : filterAfter (some Y) df = [] := by
    simp only [filterAfter, List.filter_eq_nil_iff]
    intro e he
    simpa using not_le.mpr (h e he)
  refine ⟨hnil, by rw [hnil]; decide, ?_⟩
  simp only [print_stats, hnil]
  norm_num [totalSum, colIP, colML, colDL]

/-- Witness for C10: every year of the example table is below 2022, so the
filter empties the table and the denominator collapses to 0. -/
theorem c10_zero_denominator_witness :
    filterAfter (some 2022) (format_df exampleRows) = [] ∧
    totalSum (filterAfter (some 2022) (format_df exampleRows)) = 0 ∧
    print_stats (format_df exampleRows) (some 2022) =
      ((0 : ℚ) / 0 * 100, (0 : ℚ) / 0 * 100, (0 : ℚ) / 0 * 100) :=
  c10_zero_denominator (format_df exampleRows) 2022 (by decide)

/-- C1 fails on the code: with `after_year_only = 2021`, the table handed to
the chart renderer by `main` still contains the year 2020 < 2021, because
`main` passes the unfiltered aggregation to `generate_stacked_barchart` and
only `print_stats` restricts (a local copy of) the table. -/
theorem c1_counterexample :
    2020 ∈ ((techniques_main exampleRows ⟨some 2021⟩).1.map Prod.fst) ∧
    (2020 : Int) < 2021 := by
  decide

/-- C1 (amended): `after_year_only = Y` excludes the years strictly below `Y`
from the percentage computation only; the chart data is the unfiltered
aggregation, independent of `Y`. -/
theorem c1_year_filter (rows : List Row) (Y : Int) :
    (techniques_main rows ⟨some Y⟩).1 = format_df rows ∧
    (∀ e ∈ filterAfter (some Y) (format_df rows), Y ≤ e.1) ∧
    (techniques_main rows ⟨some Y⟩).2 = print_stats (format_df rows) (some Y) := by
  refine ⟨rfl, ?_, rfl⟩
  intro e he
  simp only [filterAfter, List.mem_filter, decide_eq_true_eq] at he
  exact he.2

/-- Witness for C1 (amended): at the example input with `Y = 2021`, the chart
data is the full aggregation and the surviving filtered entry for 2021
satisfies the year bound. -/
theorem c1_year_filter_witness :
    (techniques_main exampleRows ⟨some 2021⟩).1 = format_df exampleRows ∧
    (2021 : Int) ≤ ((2021 : Int), (0 : Int), (1 : Int), (1 : Int)).1 :=
  ⟨(c1_year_filter exampleRows 2021).1,
   (c1_year_filter exampleRows 2021).2.1 (2021, 0, 1, 1) (by decide)⟩

end Techniques

namespace Heatmap

/-- One row of the lat-longs CSV: the two coordinate columns used by
`pandas_to_geopandas`.  Exact rationals stand in for the (rounded, hence
short-decimal) floating-point coordinates. -/
structure CoordRow where
  Latitude_rounded : ℚ
  Longitude_rounded : ℚ
deriving DecidableEq

/-- Embedding of the point construction in `pandas_to_geopandas` followed by
the coordinate extraction in `generate_heatmap`: each row becomes the pair
`(Longitude_rounded, Latitude_rounded)` (a shapely `Point(xy)` whose
`coords[0]` is that pair). -/
def coordsOf (rows : List CoordRow) : List (ℚ × ℚ) :=
  rows.map (fun r => (r.Longitude_rounded, r.Latitude_rounded))

/-- The `x` list of `generate_heatmap` (`x, y = zip(*coords)`): longitudes. -/
def xsOf (rows : List CoordRow) : List ℚ := (coordsOf rows).map Prod.fst

/-- The `y` list of `generate_heatmap`: latitudes. -/
def ysOf (rows : List CoordRow) : List ℚ := (coordsOf rows).map Prod.snd

/-- The outer bin edges numpy chooses for one axis when `np.histogram2d` is
called with no explicit range: the data's own minimum and maximum, expanded
by 0.5 on each side when they coincide (and the numpy default `(0, 1)` for an
empty axis, a case the script never reaches). -/
def histRange (vs : List ℚ) : ℚ × ℚ :=
  match vs with
  | [] => (0, 1)
  | v :: rest =>
    if rest.foldl min v = rest.foldl max v
    then (rest.foldl min v - 1 / 2, rest.foldl max v + 1 / 2)
    else (rest.foldl min v, rest.foldl max v)

/-- The bin a single value falls into on one axis of `np.histogram2d` with
`n` equal-width bins over `[lo, hi]`: values outside the outer edges are
dropped (`none`), the last bin is closed on the right, and every other bin
`i` covers `[lo + i·w, lo + (i+1)·w)` with `w = (hi - lo) / n`. -/
def binIndex (lo hi : ℚ) (n : ℕ) (v : ℚ) : Option ℕ :=
  if v < lo ∨ hi < v then none
  else if hi ≤ v then some (n - 1)
  else some (Int.toNat ⌊(v - lo) * n / (hi - lo)⌋)

/-- Embedding of `np.histogram2d(y, x, bins=(ny, nx))` as used in
`generate_heatmap`: the count of cell `(i, j)` is the number of `(y, x)`
pairs whose latitude falls into `y`-bin `i` and whose longitude falls into
`x`-bin `j`, with both axis ranges derived from the data itself. -/
def histogram2d (ys xs : List ℚ) (ny nx : ℕ) : ℕ → ℕ → ℕ :=
  fun i j =>
    (ys.zip xs).countP (fun p =>
      decide (binIndex (histRange ys).1 (histRange ys).2 ny p.1 = some i ∧
              binIndex (histRange xs).1 (histRange xs).2 nx p.2 = some j))

/-- Total of all cell counts of a grid over the `ny × nx` bin rectangle. -/
def gridSum (ny nx : ℕ) (h : ℕ → ℕ → ℕ) : ℕ :=
  ∑ i in Finset.range ny, ∑ j in Finset.range nx, h i j

/-- Membership test for one axis range of the histogram. -/
def inHistRange (vs : List ℚ) (v : ℚ) : Bool :=
  decide ((histRange vs).1 ≤ v ∧ v ≤ (histRange vs).2)

/-- Embedding of `np.log` on a non-negative integer count: `np.log(0)` is
negative infinity, modelled as `⊥` in `WithBot ℝ`; a positive count maps to
its real natural logarithm. -/
noncomputable def npLog (c : ℕ) : WithBot ℝ :=
  if c = 0 then ⊥ else ((Real.log c : ℝ) : WithBot ℝ)

/-- Embedding of `logheatmap[np.isneginf(logheatmap)] = 0`: replace negative
infinity by 0 and keep every finite value. -/
def replaceNegInf (x : WithBot ℝ) : WithBot ℝ :=
  WithBot.recBotCoe ((0 : ℝ) : WithBot ℝ) (fun v => (v : WithBot ℝ)) x

/-- The log-transform stage of `generate_heatmap`: apply `np.log` cellwise to
the raw counts, then replace every negative infinity by 0. -/
noncomputable def log_stage (h : ℕ → ℕ → ℕ) : ℕ → ℕ → WithBot ℝ :=
  fun i j => replaceNegInf (npLog (h i j))

/-- The boundary modes of `scipy.ndimage.gaussian_filter` selectable through
the `--mode` flag (the script's default is `nearest`). -/
inductive BoundaryMode where
  | nearest
  | reflect
  | mirror
  | wrap
  | constant
deriving DecidableEq

/-- How one axis index outside `[0, n)` is mapped back into the grid by the
scipy boundary mode: `nearest` clamps to the closest edge, `wrap` is
periodic, `reflect` reflects about the edge (repeating the edge sample),
`mirror` reflects without repeating the edge sample, and `constant` reads
the fill value instead of the grid (`none`). -/
def extendIndex (mode : BoundaryMode) (n : ℕ) (i : Int) : Option ℕ :=
  if 0 ≤ i ∧ i < (n : Int) then some i.toNat
  else
    match mode with
    | .nearest => some (if i < 0 then 0 else n - 1)
    | .wrap => if n = 0 then none else some (i.emod n).toNat
    | .reflect =>
      if n = 0 then none
      else
        let m := i.emod (2 * n)
        some (if m < (n : Int) then m.toNat else (2 * n - 1 - m).toNat)
    | .mirror =>
      if n ≤ 1 then some 0
      else
        let m := i.emod (2 * n - 2)
        some (if m < (n : Int) then m.toNat else (2 * n - 2 - m).toNat)
    | .constant => none

/-- The scipy kernel radius for a Gaussian filter: `int(truncate * sigma +
0.5)` with the default `truncate = 4.0`. -/
noncomputable def gaussRadius (sigma : ℝ) : ℕ := (Int.floor (4 * sigma + 1 / 2)).toNat

/-- The unnormalised Gaussian kernel weight at offset `k`. -/
noncomputable def gaussWeight (sigma : ℝ) (k : Int) : ℝ :=
  Real.exp (-(k ^ 2 : ℝ) / (2 * sigma ^ 2))

/-- The normalisation constant of the Gaussian kernel: the sum of the
weights over the truncated support. -/
noncomputable def gaussKernelSum (sigma : ℝ) : ℝ :=
  ∑ k in Finset.Icc (-(gaussRadius sigma : Int)) (gaussRadius sigma : Int),
    gaussWeight sigma k

/-- A one-dimensional correlation of a line of length `n` with a symmetric
kernel of radius `r`, reading out-of-range samples through the boundary mode
(`none` means the constant fill value 0). -/
noncomputable def correlate1d (mode : BoundaryMode) (n r : ℕ) (w : Int → ℝ)
    (f : ℕ → ℝ) (i : ℕ) : ℝ :=
  ∑ k in Finset.Icc (-(r : Int)) (r : Int),
    w k * (match extendIndex mode n ((i : Int) + k) with
           | some idx => f idx
           | none => 0)

/-- Embedding of `scipy.ndimage.gaussian_filter(grid, sigma, mode=mode)` on
an `ny × nx` grid: the separable filter applies the normalised truncated
Gaussian kernel along axis 0 and then along axis 1. -/
noncomputable def gaussian_filter (ny nx : ℕ) (g : ℕ → ℕ → ℝ) (sigma : ℝ)
    (mode : BoundaryMode) : ℕ → ℕ → ℝ :=
  let r := gaussRadius sigma
  let w := fun k => gaussWeight sigma k / gaussKernelSum sigma
  let pass0 := fun i j => correlate1d mode ny r w (fun i2 => g i2 j) i
  fun i j => correlate1d mode nx r w (fun j2 => pass0 i j2) j

/-- The arguments of heatmap.py that affect `generate_heatmap` (the rest of
the flags only style the rendered image). -/
structure HeatArgs where
  bins : ℕ × ℕ
  smoothing : ℝ
  mode : BoundaryMode

/-- The error raised inside the histogram-building lines of
`generate_heatmap`: `x, y = zip(*coords)` raises `ValueError: not enough
values to unpack` when the coordinate list is empty. -/
inductive HeatmapError where
  | unpackEmpty
deriving DecidableEq

/-- The histogram-building step of `generate_heatmap` (the three lines
extracting `coords`, unpacking `x, y = zip(*coords)`, and calling
`np.histogram2d(y, x, bins)`): on an empty coordinate list the unpacking
raises, otherwise the raw count grid is produced. -/
def hist_stage (df : List CoordRow) (bins : ℕ × ℕ) :
    Except HeatmapError (ℕ → ℕ → ℕ) :=
  match coordsOf df with
  | [] => .error .unpackEmpty
  | _ :: _ => .ok (histogram2d (ysOf df) (xsOf df) bins.1 bins.2)

/-- Embedding of `generate_heatmap` (heatmap.py): build the raw 2D histogram,
log-transform it with zero cells mapped to 0, and Gaussian-smooth the
resulting real grid with the given sigma and boundary mode. -/
noncomputable def generate_heatmap (df : List CoordRow) (args : HeatArgs) :
    Except HeatmapError (ℕ → ℕ → ℝ) := do
  let heatmap ← hist_stage df args.bins
  let logheatmap := log_stage heatmap
  pure (gaussian_filter args.bins.1 args.bins.2
    (fun i j => (logheatmap i j).unbot' 0) args.smoothing args.mode)

/-- C4: after the log transform, a cell with raw count 0 holds the value 0
and a cell with positive count holds the natural log of its count; no cell
holds negative infinity, so the real grid handed to the Gaussian filter is
the finite `if count = 0 then 0 else log count` grid. -/
theorem c4_log_transform (h : ℕ → ℕ → ℕ) (i j : ℕ) :
    log_stage h i j =
      (if h i j = 0 then ((0 : ℝ) : WithBot ℝ) else ((Real.log (h i j) : ℝ) : WithBot ℝ)) ∧
    log_stage h i j ≠ ⊥ ∧
    (log_stage h i j).unbot' 0 =
      (if h i j = 0 then (0 : ℝ) else Real.log (h i j)) := by
  by_cases hc : h i j = 0 <;>
    simp [log_stage, npLog, replaceNegInf, hc, WithBot.coe_ne_bot]

/-- C8: on an empty input table, the heatmap generation fails with an error,
and the failure arises in the histogram-building step (the `zip(*coords)`
unpacking of the histogram lines raises before the log transform or the
smoothing is ever reached). -/
theorem c8_empty_input (args : HeatArgs) :
    hist_stage [] args.bins = .error .unpackEmpty ∧
    generate_heatmap [] args = .error .unpackEmpty := by
  exact ⟨rfl, rfl⟩

/-- C9: the Gaussian smoothing step is deterministic — two runs on the same
input grid with the same sigma and the same boundary mode produce identical
output grids. -/
theorem c9_smoothing_deterministic (ny nx : ℕ) (g1 g2 : ℕ → ℕ → ℝ)
    (s1 s2 : ℝ) (m1 m2 : BoundaryMode)
    (hg : g1 = g2) (hs : s1 = s2) (hm : m1 = m2) :
    gaussian_filter ny nx g1 s1 m1 = gaussian_filter ny nx g2 s2 m2 := by
  rw [hg, hs, hm]

/-- Witness for C9 at a concrete grid, sigma and mode. -/
theorem c9_smoothing_deterministic_witness :
    gaussian_filter 2 2 (fun _ _ => (1 : ℝ)) 1 .nearest =
      gaussian_filter 2 2 (fun _ _ => (1 : ℝ)) 1 .nearest :=
  c9_smoothing_deterministic 2 2 (fun _ _ => (1 : ℝ)) (fun _ _ => (1 : ℝ))
    1 1 .nearest .nearest rfl rfl rfl

lemma cell_indicator {α : Type} (f g : α → Option ℕ) (ny nx : ℕ) (a : α) :
    (∑ i in Finset.range ny, ∑ j in Finset.range nx,
      (if (decide (f a = some i ∧ g a = some j)) = true then 1 else 0))
    = (if ((f a).any (fun i => decide (i < ny)) &&
           (g a).any (fun j => decide (j < nx))) = true then (1 : ℕ) else 0) := by
  cases hf : f a with
  | none => simp
  | some i0 =>
    cases hg : g a with
    | none => simp
    | some j0 =>
      simp only [Option.any_some, decide_eq_true_eq, Option.some.injEq,
        Bool.and_eq_true]
      rw [← Finset.sum_product']
      have hcond : ∀ p : ℕ × ℕ, (i0 = p.1 ∧ j0 = p.2) ↔ ((i0, j0) = p) := by
        intro p
        constructor
        · rintro ⟨h1, h2⟩
          exact Prod.ext h1 h2
        · rintro rfl
          exact ⟨rfl, rfl⟩
      simp only [hcond]
      rw [Finset.sum_ite_eq]
      simp [Finset.mem_product, Finset.mem_range]

lemma sum_countP_assign {α : Type} (f g : α → Option ℕ) (ny nx : ℕ) (L : List α) :
    (∑ i in Finset.range ny, ∑ j in Finset.range nx,
      L.countP (fun p => decide (f p = some i ∧ g p = some j)))
    = L.countP (fun p =>
        (f p).any (fun i => decide (i < ny)) && (g p).any (fun j => decide (j < nx))) := by
  induction L with
  | nil => simp
  | cons a L ih =>
    simp only [List.countP_cons, Finset.sum_add_distrib]
    rw [ih, cell_indicator]

lemma foldl_min_le (l : List ℚ) : ∀ (v u : ℚ), u ∈ v :: l → l.foldl min v ≤ u := by
  induction l with
  | nil =>
    intro v u hu
    simp only [List.mem_singleton] at hu
    simp [hu]
  | cons a l ih =>
    intro v u hu
    rw [List.foldl_cons]
    have hbase : l.foldl min (min v a) ≤ min v a :=
      ih (min v a) (min v a) (List.mem_cons_self _ _)
    rcases List.mem_cons.mp hu with h1 | h2
    · rw [h1]
      exact le_trans hbase (min_le_left _ _)
    · rcases List.mem_cons.mp h2 with h3 | h4
      · rw [h3]
        exact le_trans hbase (min_le_right _ _)
      · exact ih (min v a) u (List.mem_cons_of_mem _ h4)

lemma le_foldl_max (l : List ℚ) : ∀ (v u : ℚ), u ∈ v :: l → u ≤ l.foldl max v := by
  induction l with
  | nil =>
    intro v u hu
    simp only [List.mem_singleton] at hu
    simp [hu]
  | cons a l ih =>
    intro v u hu
    rw [List.foldl_cons]
    have hbase : max v a ≤ l.foldl max (max v a) :=
      ih (max v a) (max v a) (List.mem_cons_self _ _)
    rcases List.mem_cons.mp hu with h1 | h2
    · rw [h1]
      exact le_trans (le_max_left _ _) hbase
    · rcases List.mem_cons.mp h2 with h3 | h4
      · rw [h3]
        exact le_trans (le_max_right _ _) hbase
      · exact ih (max v a) u (List.mem_cons_of_mem _ h4)

lemma histRange_bounds (vs : List ℚ) (v : ℚ) (hv : v ∈ vs) :
    (histRange vs).1 ≤ v ∧ v ≤ (histRange vs).2 ∧ (histRange vs).1 < (histRange vs).2 := by
  match vs, hv with
  | v0 :: rest, hv =>
    have hlo : rest.foldl min v0 ≤ v := foldl_min_le rest v0 v hv
    have hhi : v ≤ rest.foldl max v0 := le_foldl_max rest v0 v hv
    simp only [histRange]
    by_cases he : rest.foldl min v0 = rest.foldl max v0
    · rw [if_pos he]
      refine ⟨by linarith, by linarith, by rw [he]; linarith⟩
    · rw [if_neg he]
      have hle : rest.foldl min v0 ≤ rest.foldl max v0 := le_trans hlo hhi
      exact ⟨hlo, hhi, lt_of_le_of_ne hle he⟩

lemma binIndex_some_lt (lo hi v : ℚ) (n : ℕ) (hn : 0 < n) (hlh : lo < hi)
    (h1 : lo ≤ v) (h2 : v ≤ hi) :
    ∃ i, binIndex lo hi n v = some i ∧ i < n := by
  have hnotout : ¬(v < lo ∨ hi < v) := by
    push_neg
    exact ⟨h1, h2⟩
  unfold binIndex
  rw [if_neg hnotout]
  by_cases hv : hi ≤ v
  · rw [if_pos hv]
    exact ⟨n - 1, rfl, Nat.sub_lt hn Nat.one_pos⟩
  · rw [if_neg hv]
    refine ⟨_, rfl, ?_⟩
    push_neg at hv
    have hpos : (0 : ℚ) < hi - lo := sub_pos.mpr hlh
    have hcast : (0 : ℚ) < (n : ℚ) := by exact_mod_cast hn
    have hlt : (v - lo) * (n : ℚ) / (hi - lo) < (n : ℚ) := by
      rw [div_lt_iff₀ hpos]
      have hsub : v - lo < hi - lo := by linarith
      nlinarith
    have hfl : ⌊(v - lo) * (n : ℚ) / (hi - lo)⌋ < (n : Int) := by
      apply Int.floor_lt.mpr
      push_cast
      exact hlt
    omega

lemma length_pairs (rows : List CoordRow) :
    ((ysOf rows).zip (xsOf rows)).length = rows.length := by
  simp [ysOf, xsOf, coordsOf, List.length_zip]

lemma pair_mem_facts (rows : List CoordRow) (p : ℚ × ℚ)
    (hp : p ∈ (ysOf rows).zip (xsOf rows)) : p.1 ∈ ysOf rows ∧ p.2 ∈ xsOf rows := by
  obtain ⟨a, b⟩ := p
  exact List.of_mem_zip hp

lemma pair_assigned (rows : List CoordRow) (ny nx : ℕ) (hy : 0 < ny) (hx : 0 < nx)
    (p : ℚ × ℚ) (hp : p ∈ (ysOf rows).zip (xsOf rows)) :
    ∃ i j, i < ny ∧ j < nx ∧
      binIndex (histRange (ysOf rows)).1 (histRange (ysOf rows)).2 ny p.1 = some i ∧
      binIndex (histRange (xsOf rows)).1 (histRange (xsOf rows)).2 nx p.2 = some j := by
  obtain ⟨hy1, hx1⟩ := pair_mem_facts rows p hp
  obtain ⟨hl1, hl2, hl3⟩ := histRange_bounds _ _ hy1
  obtain ⟨hm1, hm2, hm3⟩ := histRange_bounds _ _ hx1
  obtain ⟨i, hi, hilt⟩ := binIndex_some_lt _ _ _ ny hy hl3 hl1 hl2
  obtain ⟨j, hj, hjlt⟩ := binIndex_some_lt _ _ _ nx hx hm3 hm1 hm2
  exact ⟨i, j, hilt, hjlt, hi, hj⟩

/-- C3: for a non-empty input, the sum of the raw (pre-log) histogram cell
counts equals the number of input pairs falling inside the bin range — and
since `np.histogram2d` is called without an explicit range, that range is the
data's own min/max, so the sum equals the full number of input rows (no
point is ever outside it). -/
theorem c3_histogram_mass (rows : List CoordRow) (ny nx : ℕ)
    (_hne : rows ≠ []) (hy : 0 < ny) (hx : 0 < nx) :
    gridSum ny nx (histogram2d (ysOf rows) (xsOf rows) ny nx)
      = (((ysOf rows).zip (xsOf rows)).filter
          (fun p => inHistRange (ysOf rows) p.1 && inHistRange (xsOf rows) p.2)).length ∧
    gridSum ny nx (histogram2d (ysOf rows) (xsOf rows) ny nx) = rows.length := by
  have hmain : gridSum ny nx (histogram2d (ysOf rows) (xsOf rows) ny nx)
      = ((ysOf rows).zip (xsOf rows)).countP (fun p =>
          ((binIndex (histRange (ysOf rows)).1 (histRange (ysOf rows)).2 ny p.1).any
            (fun i => decide (i < ny)) &&
           (binIndex (histRange (xsOf rows)).1 (histRange (xsOf rows)).2 nx p.2).any
            (fun j => decide (j < nx)))) := by
    have h := sum_countP_assign
      (fun p : ℚ × ℚ => binIndex (histRange (ysOf rows)).1 (histRange (ysOf rows)).2 ny p.1)
      (fun p : ℚ × ℚ => binIndex (histRange (xsOf rows)).1 (histRange (xsOf rows)).2 nx p.2)
      ny nx ((ysOf rows).zip (xsOf rows))
    simpa [gridSum, histogram2d] using h
  have hall : ∀ p ∈ (ysOf rows).zip (xsOf rows),
      ((binIndex (histRange (ysOf rows)).1 (histRange (ysOf rows)).2 ny p.1).any
        (fun i => decide (i < ny)) &&
       (binIndex (histRange (xsOf rows)).1 (histRange (xsOf rows)).2 nx p.2).any
        (fun j => decide (j < nx))) = true := by
    intro p hp
    obtain ⟨i, j, hilt, hjlt, hi, hj⟩ := pair_assigned rows ny nx hy hx p hp
    rw [hi, hj]
    simp [hilt, hjlt]
  have hall2 : ∀ p ∈ (ysOf rows).zip (xsOf rows),
      (inHistRange (ysOf rows) p.1 && inHistRange (xsOf rows) p.2) = true := by
    intro p hp
    obtain ⟨hy1, hx1⟩ := pair_mem_facts rows p hp
    obtain ⟨a1, a2, _⟩ := histRange_bounds _ _ hy1
    obtain ⟨b1, b2, _⟩ := histRange_bounds _ _ hx1
    simp [inHistRange, a1, a2, b1, b2]
  constructor
  · rw [hmain, List.countP_eq_length_filter, List.filter_eq_self.mpr hall,
      List.filter_eq_self.mpr hall2]
  · rw [hmain, List.countP_eq_length_filter, List.filter_eq_self.mpr hall,
      length_pairs]

/-- A concrete two-point input: one point at latitude 0, longitude 0 and one
at latitude 10, longitude 200 — the second lies outside the world basemap
extent of longitudes [-180, 180]. -/
def sampleRows : List CoordRow := [⟨0, 0⟩, ⟨10, 200⟩]

/-- Witness for C3 at the concrete two-point input with 2 × 2 bins. -/
theorem c3_histogram_mass_witness :
    gridSum 2 2 (histogram2d (ysOf sampleRows) (xsOf sampleRows) 2 2)
      = (((ysOf sampleRows).zip (xsOf sampleRows)).filter
          (fun p => inHistRange (ysOf sampleRows) p.1 && inHistRange (xsOf sampleRows) p.2)).length ∧
    gridSum 2 2 (histogram2d (ysOf sampleRows) (xsOf sampleRows) 2 2) = sampleRows.length :=
  c3_histogram_mass sampleRows 2 2 (by decide) (by decide) (by decide)

/-- Whether a `(y, x)` pair lies inside a rectangular basemap extent
`(minx, miny, maxx, maxy)` (as computed from `world.boundary.total_bounds`). -/
def insideExtent (minx miny maxx maxy : ℚ) (p : ℚ × ℚ) : Bool :=
  decide (minx ≤ p.2 ∧ p.2 ≤ maxx ∧ miny ≤ p.1 ∧ p.1 ≤ maxy)

/-- C2 fails on the code: with the two-point input whose second point
(latitude 10, longitude 200) lies outside the basemap extent
(-180, -90, 180, 90), only one point is inside the extent, yet both points
are counted by the binning — the histogram's range is derived from the data
itself, not from the basemap extent, so nothing is dropped. -/
theorem c2_counterexample :
    (((ysOf sampleRows).zip (xsOf sampleRows)).filter
        (insideExtent (-180) (-90) 180 90)).length = 1 ∧
    gridSum 2 2 (histogram2d (ysOf sampleRows) (xsOf sampleRows) 2 2) = 2 ∧
    gridSum 2 2 (histogram2d (ysOf sampleRows) (xsOf sampleRows) 2 2) ≠
      (((ysOf sampleRows).zip (xsOf sampleRows)).filter
        (insideExtent (-180) (-90) 180 90)).length := by
  have hys : ysOf sampleRows = [0, 10] := by
    simp [ysOf, coordsOf, sampleRows]
  have hxs : xsOf sampleRows = [0, 200] := by
    simp [xsOf, coordsOf, sampleRows]
  have hry : histRange [(0 : ℚ), 10] = (0, 10) := by
    norm_num [histRange]
  have hrx : histRange [(0 : ℚ), 200] = (0, 200) := by
    norm_num [histRange]
  have hb1 : binIndex 0 10 2 0 = some 0 := by
    norm_num [binIndex]
  have hb2 : binIndex 0 10 2 10 = some 1 := by
    norm_num [binIndex]
  have hb3 : binIndex 0 200 2 0 = some 0 := by
    norm_num [binIndex]
  have hb4 : binIndex 0 200 2 200 = some 1 := by
    norm_num [binIndex]
  have hflt : (((ysOf sampleRows).zip (xsOf sampleRows)).filter
      (insideExtent (-180) (-90) 180 90)).length = 1 := by
    decide
  have hgrid : gridSum 2 2 (histogram2d (ysOf sampleRows) (xsOf sampleRows) 2 2) = 2 := by
    rw [hys, hxs]
    simp only [gridSum, histogram2d, hry, hrx, List.zip_cons_cons, List.zip_nil_right,
      List.countP_cons, List.countP_nil, hb1, hb2, hb3, hb4]
    simp [Finset.sum_range_succ]
  exact ⟨hflt, hgrid, by rw [hgrid, hflt]; decide⟩

/-- C2 (amended): the binning never consults the basemap extent and drops no
point at all — every input pair is assigned a cell inside the bin grid, the
axis ranges being the data's own min/max. -/
theorem c2_extent_independent (rows : List CoordRow) (ny nx : ℕ)
    (hy : 0 < ny) (hx : 0 < nx) (p : ℚ × ℚ)
    (hp : p ∈ (ysOf rows).zip (xsOf rows)) :
    ∃ i j, i < ny ∧ j < nx ∧
      binIndex (histRange (ysOf rows)).1 (histRange (ysOf rows)).2 ny p.1 = some i ∧
      binIndex (histRange (xsOf rows)).1 (histRange (xsOf rows)).2 nx p.2 = some j :=
  pair_assigned rows ny nx hy hx p hp

/-- Witness for the amended C2 at the first point of the concrete input. -/
theorem c2_extent_independent_witness :
    ∃ i j, i < 2 ∧ j < 2 ∧
      binIndex (histRange (ysOf sampleRows)).1 (histRange (ysOf sampleRows)).2 2
        (((0 : ℚ), (0 : ℚ)) : ℚ × ℚ).1 = some i ∧
      binIndex (histRange (xsOf sampleRows)).1 (histRange (xsOf sampleRows)).2 2
        (((0 : ℚ), (0 : ℚ)) : ℚ × ℚ).2 = some j :=
  c2_extent_independent sampleRows 2 2 (by decide) (by decide)
    ((0 : ℚ), (0 : ℚ)) (by decide)

end Heatmap
